import Mathlib

/-!
Verification development for the texar-pytorch data-loading pipeline
(`texar/data/data/data_base.py`).

The Python module is shallowly embedded as executable Lean definitions:

* `SourceModel` models the `DataSource` hierarchy (`SequenceDataSource`,
  `IterDataSource`, `_TruncatedDataSource`, `_TransformedDataSource`) with
  explicit error results for `__getitem__` / `__len__` and an explicit
  iteration semantics (`iterRun`) recording whether iteration ends normally
  or with an escaping error.
* `CachedDataSource` models `_CachedDataSource`: an explicit state record
  holding the already-materialised iteration order of the wrapped source,
  the iterator position, `max_index`, the `erase_after_access` flag and the
  cache (a dict in erase mode, a list in retain mode).
* `DataBase`/`mkDataBase` model the pipeline engine: strategy resolution,
  source wrapping, the random-access probe, eager construction,
  `__getitem__`, `_add_cached_examples` and `_prefetch_all_source`.

Python exceptions are modelled by `PyError`; generator termination is
modelled by `IterEnd` (`errored` stands for the `RuntimeError` produced
when `StopIteration` escapes a generator body, per PEP 479, or for an
uncaught error propagating out of the underlying iterator). Machine
integers are modelled as `Nat`/`Int` (Python integers are unbounded, so no
wrap-around is involved). Negative list indexing is not used by the
engine and is modelled as an `IndexError`.
-/

set_option autoImplicit false

namespace Texar

/-- Python exceptions relevant to the data pipeline. `loopBound` is the
explicit fuel marker for the unbounded doubling loop of
`_prefetch_all_source`; it is proved unreachable for finite sources. -/
inductive PyError where
  | typeError
  | indexError
  | keyError
  | stopIteration
  | valueError
  | runtimeError
  | attributeError
  | loopBound
  deriving DecidableEq, Repr

/-- How an iteration (a Python `for`/generator run) ends: normally, or with
an error escaping to the consumer. -/
inductive IterEnd where
  | normal
  | errored
  deriving DecidableEq, Repr

/-- `_LazyStrategy` from `dataset_utils`. -/
inductive LazyStrategy where
  | none
  | process
  | all
  deriving DecidableEq, Repr

/-- `_CacheStrategy` from `dataset_utils`. -/
inductive CacheStrategy where
  | none
  | loaded
  | processed
  deriving DecidableEq, Repr

/-- Warnings emitted by `DataBase.__init__` / `_prefetch_all_source`. -/
inductive MkWarning where
  | cacheStrategyWithNoneLazy
  | noneCacheWithProcessLazy
  | possiblyInfiniteSource
  deriving DecidableEq, Repr

/-! ### Python dicts with `Nat` keys, as association lists -/

variable {V : Type}

/-- List indexing `l[n]` for `0 ≤ n`, returning `none` where Python raises
`IndexError`. (A private copy of `List.get?` so that rewriting is not
disturbed by library normal forms.) -/
def listNth : List V → Nat → Option V
  | [], _ => Option.none
  | v :: _, 0 => some v
  | _ :: rest, n + 1 => listNth rest n

@[simp] theorem listNth_nil (n : Nat) : listNth ([] : List V) n = Option.none := by
  cases n <;> rfl

theorem listNth_eq_none_iff (l : List V) (n : Nat) :
    listNth l n = Option.none ↔ l.length ≤ n := by
  induction l generalizing n with
  | nil => simp
  | cons v rest ih =>
    cases n with
    | zero => simp [listNth]
    | succ n => simpa [listNth, Nat.succ_le_succ_iff] using ih n

theorem listNth_eq_get (l : List V) (n : Nat) (h : n < l.length) :
    listNth l n = some (l.get ⟨n, h⟩) := by
  induction l generalizing n with
  | nil => simp at h
  | cons v rest ih =>
    cases n with
    | zero => rfl
    | succ n => exact ih n (Nat.succ_lt_succ_iff.1 h)

theorem listNth_append_left (l l' : List V) (n : Nat) (h : n < l.length) :
    listNth (l ++ l') n = listNth l n := by
  induction l generalizing n with
  | nil => simp at h
  | cons v rest ih =>
    cases n with
    | zero => rfl
    | succ n => exact ih n (Nat.succ_lt_succ_iff.1 h)

/-- Dict lookup (`d[k]`, returning `none` where Python raises `KeyError`). -/
def dictLookup : List (Nat × V) → Nat → Option V
  | [], _ => Option.none
  | (k', v) :: rest, k => if k' = k then some v else dictLookup rest k

/-- Dict assignment `d[k] = v` (overwrites an existing key). -/
def dictInsert : List (Nat × V) → Nat → V → List (Nat × V)
  | [], k, v => [(k, v)]
  | (k', v') :: rest, k, v =>
    if k' = k then (k, v) :: rest else (k', v') :: dictInsert rest k v

/-- Dict deletion `del d[k]` (removes the first entry with key `k`). -/
def dictDelete : List (Nat × V) → Nat → List (Nat × V)
  | [], _ => []
  | (k', v') :: rest, k =>
    if k' = k then rest else (k', v') :: dictDelete rest k

theorem dictLookup_eq_none_of_not_mem_keys (d : List (Nat × V)) (k : Nat)
    (h : k ∉ d.map Prod.fst) : dictLookup d k = Option.none := by
  induction d with
  | nil => rfl
  | cons p rest ih =>
    obtain ⟨k', v'⟩ := p
    simp only [List.map_cons, List.mem_cons] at h
    push_neg at h
    simp only [dictLookup, if_neg (Ne.symm h.1)]
    exact ih h.2

theorem dictLookup_dictDelete (d : List (Nat × V)) (k : Nat)
    (huniq : d.map Prod.fst |>.Nodup) :
    dictLookup (dictDelete d k) k = Option.none := by
  induction d with
  | nil => simp [dictDelete, dictLookup]
  | cons p rest ih =>
    obtain ⟨k', v'⟩ := p
    simp only [List.map_cons, List.nodup_cons] at huniq
    by_cases h : k' = k
    · subst h
      simp only [dictDelete, if_pos rfl]
      exact dictLookup_eq_none_of_not_mem_keys rest k' huniq.1
    · simp only [dictDelete, if_neg h, dictLookup, if_neg h]
      exact ih huniq.2

theorem dictDelete_length_lt (d : List (Nat × V)) (k : Nat) (v : V)
    (hmem : dictLookup d k = some v) :
    (dictDelete d k).length < d.length := by
  induction d with
  | nil => simp [dictLookup] at hmem
  | cons p rest ih =>
    obtain ⟨k', v'⟩ := p
    by_cases h : k' = k
    · simp [dictDelete, if_pos h]
    · simp only [dictLookup, if_neg h] at hmem
      simpa [dictDelete, if_neg h, Nat.succ_lt_succ_iff] using ih hmem

/-! ### Data sources -/

/-- The stateless `DataSource` variants used by the engine:
`SequenceDataSource`, `IterDataSource`, `_TruncatedDataSource`,
`_TransformedDataSource`. -/
inductive SourceModel (V : Type) where
  | sequenceSource : List V → SourceModel V
  | iterSource : List V → SourceModel V
  | truncated : SourceModel V → Int → SourceModel V
  | transformed : SourceModel V → (V → V) → SourceModel V

namespace SourceModel

/-- `__getitem__`. `SequenceDataSource` indexes the sequence,
`IterDataSource` inherits the base-class `TypeError`,
`_TruncatedDataSource` raises `IndexError` for `item >= max_size` (the
bound is an arbitrary Python integer, so an `Int` here) and otherwise
delegates, `_TransformedDataSource` applies the processing function to the
delegated result. -/
def srcGetItem : SourceModel V → Nat → Except PyError V
  | sequenceSource l, i =>
    match listNth l i with
    | some v => .ok v
    | Option.none => .error .indexError
  | iterSource _, _ => .error .typeError
  | truncated s n, i => if n ≤ (i : Int) then .error .indexError else srcGetItem s i
  | transformed s f, i => (srcGetItem s i).map f

/-- The value returned by the `__len__` method (before the `len()`
builtin validates it). `IterDataSource` inherits the base-class
`TypeError`; `_TruncatedDataSource` computes `min(len(source), max_size)`
— a `len()` builtin call on the wrapped source, validated — and falls
back to `max_size` on `TypeError`, so the result can be negative when
`max_size` is; `_TransformedDataSource` returns `len(self._source)`,
again through the builtin. -/
def dunderLen : SourceModel V → Except PyError Int
  | sequenceSource l => .ok (l.length : Int)
  | iterSource _ => .error .typeError
  | truncated s n =>
    match dunderLen s with
    | .ok m => if m < 0 then .error .valueError else .ok (min m n)
    | .error .typeError => .ok n
    | .error e => .error e
  | transformed s _ =>
    match dunderLen s with
    | .ok m => if m < 0 then .error .valueError else .ok m
    | .error e => .error e

/-- The `len()` builtin applied to a source: calls `__len__` and raises
`ValueError` when the returned integer is negative. -/
def srcLen (s : SourceModel V) : Except PyError Int :=
  match dunderLen s with
  | .ok m => if m < 0 then .error .valueError else .ok m
  | .error e => .error e

theorem srcLen_seq (l : List V) :
    srcLen (.sequenceSource l) = .ok (l.length : Int) := by
  simp only [srcLen, dunderLen]
  rw [if_neg (by omega)]

theorem srcLen_eval (s : SourceModel V) (k : Int)
    (h : dunderLen s = .ok k) (hk : 0 ≤ k) : srcLen s = .ok k := by
  simp only [srcLen, h]
  rw [if_neg (by omega)]

/-- The builtin check is idempotent, so `len` of a `_TransformedDataSource`
equals `len` of the wrapped source. -/
theorem srcLen_transformed (s : SourceModel V) (f : V → V) :
    srcLen (.transformed s f) = srcLen s := by
  simp only [srcLen, dunderLen]
  cases h : dunderLen s with
  | error e => rfl
  | ok m => by_cases hm : m < 0 <;> simp [hm]

theorem srcLen_ok_inv (s : SourceModel V) (k : Int) (h : srcLen s = .ok k) :
    dunderLen s = .ok k ∧ 0 ≤ k := by
  simp only [srcLen] at h
  cases hd : dunderLen s with
  | error e => simp [hd] at h
  | ok m =>
    rw [hd] at h
    by_cases hm : m < 0
    · simp [hm] at h
    · simp only [hm, if_neg] at h
      cases h
      exact ⟨rfl, by omega⟩

theorem srcLen_typeError_inv (s : SourceModel V)
    (h : srcLen s = .error .typeError) : dunderLen s = .error .typeError := by
  simp only [srcLen] at h
  cases hd : dunderLen s with
  | error e =>
    rw [hd] at h
    cases h
    rfl
  | ok m =>
    rw [hd] at h
    by_cases hm : m < 0 <;> simp [hm] at h

theorem srcLen_truncated_empty_nonneg (k : Int) (hk : 0 ≤ k) :
    srcLen (.truncated (.sequenceSource ([] : List V)) k) = .ok 0 := by
  simp only [srcLen, dunderLen, List.length_nil, Nat.cast_zero]
  rw [if_neg (by omega : ¬((0 : Int) < 0)), min_eq_left hk]
  rfl

theorem srcLen_truncated_empty_neg (k : Int) (hk : k < 0) :
    srcLen (.truncated (.sequenceSource ([] : List V)) k) = .error .valueError := by
  simp only [srcLen, dunderLen, List.length_nil, Nat.cast_zero]
  rw [if_neg (by omega : ¬((0 : Int) < 0)), min_eq_right (le_of_lt hk)]
  show (if k < 0 then (Except.error PyError.valueError : Except PyError Int) else Except.ok k)
      = Except.error PyError.valueError
  rw [if_pos hk]

/-- One run of `_TruncatedDataSource.__iter__`'s generator over an
underlying iterator that yields `ys` and then finishes with `e`. The fuel
argument is the loop counter bound `max_size`. When the underlying
iterator is exhausted before `max_size` elements were yielded, the
`StopIteration` raised by `next(iterator)` escapes the generator body and
reaches the consumer as a `RuntimeError` (PEP 479), modelled by
`IterEnd.errored`. -/
def truncIterAux : List V → IterEnd → Nat → List V × IterEnd
  | _, _, 0 => ([], .normal)
  | [], _, _ + 1 => ([], .errored)
  | y :: ys, e, n + 1 =>
    let r := truncIterAux ys e n
    (y :: r.1, r.2)

/-- `__iter__`, run to completion: the list of yielded elements together
with how the iteration ended. -/
def iterRun : SourceModel V → List V × IterEnd
  | sequenceSource l => (l, .normal)
  | iterSource l => (l, .normal)
  | truncated s n =>
    let r := iterRun s
    truncIterAux r.1 r.2 n.toNat
  | transformed s f =>
    let r := iterRun s
    (r.1.map f, r.2)

theorem truncIterAux_of_le (ys : List V) (e : IterEnd) (n : Nat)
    (h : n ≤ ys.length) : truncIterAux ys e n = (ys.take n, .normal) := by
  induction ys generalizing n with
  | nil =>
    cases n with
    | zero => rfl
    | succ n => simp at h
  | cons y ys ih =>
    cases n with
    | zero => rfl
    | succ n =>
      simp only [List.length_cons, Nat.succ_le_succ_iff] at h
      simp [truncIterAux, ih n h, List.take_succ_cons]

theorem truncIterAux_of_lt (ys : List V) (n : Nat)
    (h : ys.length < n) : truncIterAux ys .normal n = (ys, .errored) := by
  induction ys generalizing n with
  | nil =>
    cases n with
    | zero => omega
    | succ n => rfl
  | cons y ys ih =>
    cases n with
    | zero => omega
    | succ n =>
      simp only [List.length_cons, Nat.succ_lt_succ_iff] at h
      simp [truncIterAux, ih n h]

end SourceModel

/-! ### `_CachedDataSource` -/

/-- The cache of a `_CachedDataSource`: a dict (erase-after-access mode) or
a list (retain mode). -/
inductive Cache (V : Type) where
  | dict : List (Nat × V) → Cache V
  | list : List V → Cache V

/-- Number of entries currently buffered. -/
def Cache.size : Cache V → Nat
  | .dict d => d.length
  | .list l => l.length

/-- State of a `_CachedDataSource`. `sourceIter`/`srcEnd` are the wrapped
source's iteration order and end signal (fixed by `iter(data_source)`);
`pos` is the position of `self._iter` in that order. -/
structure CachedDataSource (V : Type) where
  sourceIter : List V
  srcEnd : IterEnd
  pos : Nat
  maxIndex : Int
  eraseAfterAccess : Bool
  cache : Cache V

namespace CachedDataSource

open SourceModel

/-- `_CachedDataSource.__init__`. -/
def mkCachedSource (s : SourceModel V) (eraseAfterAccess : Bool) :
    CachedDataSource V :=
  { sourceIter := (iterRun s).1
    srcEnd := (iterRun s).2
    pos := 0
    maxIndex := -1
    eraseAfterAccess := eraseAfterAccess
    cache := if eraseAfterAccess then .dict [] else .list [] }

/-- The `self._cache[self._max_index] = example` / `self._cache.append(example)`
step of `prefetch`, keyed on the `erase_after_access` flag. -/
def storeCache (erase : Bool) (cache : Cache V) (k : Nat) (v : V) : Cache V :=
  if erase then
    match cache with
    | .dict d => .dict (dictInsert d k v)
    | .list l => .list l
  else
    match cache with
    | .list l => .list (l ++ [v])
    | .dict d => .dict d

/-- The loop body of `prefetch`, with the loop-iteration count as fuel
(the `while self._max_index < index` loop advances `max_index` by one per
iteration, so `(index - max_index).toNat` iterations suffice). Returns the
final state and the exception propagating out of `next(self._iter)`, if
any: `StopIteration` when the underlying iterator is exhausted normally,
`RuntimeError` when its own iteration ended with an escaped error. -/
def prefetchAux (i : Int) : Nat → CachedDataSource V → CachedDataSource V × Option PyError
  | 0, c => (c, Option.none)
  | fuel + 1, c =>
    if c.maxIndex < i then
      match listNth c.sourceIter c.pos with
      | Option.none =>
        (c, some (if c.srcEnd = .normal then .stopIteration else .runtimeError))
      | some ex =>
        prefetchAux i fuel
          { c with
            pos := c.pos + 1
            maxIndex := c.maxIndex + 1
            cache := storeCache c.eraseAfterAccess c.cache (c.maxIndex + 1).toNat ex }
    else (c, Option.none)

/-- `_CachedDataSource.prefetch`. -/
def prefetch (c : CachedDataSource V) (i : Int) : CachedDataSource V × Option PyError :=
  prefetchAux i (i - c.maxIndex).toNat c

/-- `_CachedDataSource.__getitem__`: reads `self._cache[index]` and, in
erase-after-access mode, deletes the entry. -/
def cachedGet (c : CachedDataSource V) (i : Nat) :
    Except PyError (V × CachedDataSource V) :=
  match c.cache with
  | .dict d =>
    match dictLookup d i with
    | Option.none => .error .keyError
    | some v =>
      if c.eraseAfterAccess then .ok (v, { c with cache := .dict (dictDelete d i) })
      else .ok (v, c)
  | .list l =>
    match listNth l i with
    | Option.none => .error .indexError
    | some v =>
      if c.eraseAfterAccess then .ok (v, { c with cache := .list (l.eraseIdx i) })
      else .ok (v, c)

/-- `_CachedDataSource.reset`. -/
def reset (c : CachedDataSource V) : CachedDataSource V :=
  if c.eraseAfterAccess then { c with pos := 0, maxIndex := -1 } else c

/-- Operations a caller can perform on a `_CachedDataSource`. An operation
whose Python counterpart raises leaves the state as it was at the raise
point (`prefetch` keeps its partial progress; `__getitem__` mutates
nothing when the lookup fails). -/
inductive CSOp where
  | prefetchTo : Int → CSOp
  | getAt : Nat → CSOp
  | resetOp : CSOp
  deriving DecidableEq, Repr

/-- Apply one operation to the state. -/
def applyOp (c : CachedDataSource V) : CSOp → CachedDataSource V
  | .prefetchTo i => (prefetch c i).1
  | .getAt i =>
    match cachedGet c i with
    | .ok r => r.2
    | .error _ => c
  | .resetOp => reset c

/-! #### Basic `prefetch` lemmas -/

theorem prefetchAux_frozen (i : Int) (fuel : Nat) (c : CachedDataSource V) :
    (prefetchAux i fuel c).1.sourceIter = c.sourceIter ∧
    (prefetchAux i fuel c).1.srcEnd = c.srcEnd ∧
    (prefetchAux i fuel c).1.eraseAfterAccess = c.eraseAfterAccess := by
  induction fuel generalizing c with
  | zero => exact ⟨rfl, rfl, rfl⟩
  | succ fuel ih =>
    simp only [prefetchAux]
    split
    · cases hg : listNth c.sourceIter c.pos with
      | none => exact ⟨rfl, rfl, rfl⟩
      | some ex => simpa using ih _
    · exact ⟨rfl, rfl, rfl⟩

theorem prefetchAux_maxIndex_mono (i : Int) (fuel : Nat) (c : CachedDataSource V) :
    c.maxIndex ≤ (prefetchAux i fuel c).1.maxIndex := by
  induction fuel generalizing c with
  | zero => exact le_refl _
  | succ fuel ih =>
    simp only [prefetchAux]
    split
    · cases hg : listNth c.sourceIter c.pos with
      | none => exact le_refl _
      | some ex =>
        refine le_trans ?_ (ih _)
        simp
    · exact le_refl _

theorem prefetchAux_pos_mono (i : Int) (fuel : Nat) (c : CachedDataSource V) :
    c.pos ≤ (prefetchAux i fuel c).1.pos := by
  induction fuel generalizing c with
  | zero => exact le_refl _
  | succ fuel ih =>
    simp only [prefetchAux]
    split
    · cases hg : listNth c.sourceIter c.pos with
      | none => exact le_refl _
      | some ex =>
        refine le_trans ?_ (ih _)
        simp
    · exact le_refl _

/-- If `prefetch` completed without fuel exhaustion relative to the target
(i.e. with the canonical fuel) and did not raise, `max_index` reached the
target. -/
theorem prefetchAux_reached_of_no_raise (i : Int) (fuel : Nat) (c : CachedDataSource V)
    (hfuel : fuel = (i - c.maxIndex).toNat)
    (hok : (prefetchAux i fuel c).2 = Option.none) :
    i ≤ (prefetchAux i fuel c).1.maxIndex := by
  induction fuel generalizing c with
  | zero =>
    simp only [prefetchAux]
    omega
  | succ fuel ih =>
    simp only [prefetchAux] at hok ⊢
    by_cases hlt : c.maxIndex < i
    · simp only [if_pos hlt] at hok ⊢
      cases hg : listNth c.sourceIter c.pos with
      | none => simp [hg] at hok
      | some ex =>
        simp only [hg] at hok ⊢
        refine ih _ ?_ hok
        simp only []
        omega
    · simp only [if_neg hlt]
      omega

/-- When the underlying iterator raised, the returned state is exhausted:
its position is past the end of the source order. -/
theorem prefetchAux_raised_exhausted (i : Int) (fuel : Nat) (c : CachedDataSource V)
    (e : PyError) (hr : (prefetchAux i fuel c).2 = some e) :
    (prefetchAux i fuel c).1.sourceIter.length ≤ (prefetchAux i fuel c).1.pos := by
  induction fuel generalizing c with
  | zero => simp [prefetchAux] at hr
  | succ fuel ih =>
    simp only [prefetchAux] at hr ⊢
    by_cases hlt : c.maxIndex < i
    · simp only [if_pos hlt] at hr ⊢
      cases hg : listNth c.sourceIter c.pos with
      | none =>
        simp only [hg]
        exact le_of_not_lt (fun hlt' => by simp [listNth_eq_get _ _ hlt'] at hg)
      | some ex =>
        simp only [hg] at hr ⊢
        exact ih _ hr
    · simp [if_neg hlt] at hr

/-- On an exhausted state, `prefetch` never changes the state. -/
theorem prefetchAux_exhausted_id (i : Int) (fuel : Nat) (c : CachedDataSource V)
    (hpos : c.sourceIter.length ≤ c.pos) :
    (prefetchAux i fuel c).1 = c := by
  cases fuel with
  | zero => rfl
  | succ fuel =>
    simp only [prefetchAux]
    split
    · have hg : listNth c.sourceIter c.pos = Option.none := (listNth_eq_none_iff _ _).2 hpos
      simp [hg]
    · rfl

/-- `prefetch` to a target at or below `max_index` is a no-op. -/
theorem prefetch_noop (c : CachedDataSource V) (i : Int) (h : i ≤ c.maxIndex) :
    prefetch c i = (c, Option.none) := by
  have : (i - c.maxIndex).toNat = 0 := by omega
  simp [prefetch, this, prefetchAux]

end CachedDataSource

/-! ### The pipeline engine (`DataBase`) -/

open SourceModel CachedDataSource

/-- The hyperparameters of `DataBase` that influence the modelled
behaviour (`name`, `batch_size`, etc. do not). Defaults per
`default_hparams`: `lazy_strategy='none'`, `cache_strategy='processed'`,
`parallelize_processing=True`, `num_parallel_calls=1`,
`max_dataset_size=-1`. -/
structure DataHParams where
  lazyStrategy : LazyStrategy
  cacheStrategy : CacheStrategy
  parallelizeProcessing : Bool
  numParallelCalls : Nat
  maxDatasetSize : Int
  deriving DecidableEq, Repr

/-- The strategy-resolution step of `DataBase.__init__` (the
"Check and convert strategy hyperparameters" block): returns the resolved
cache strategy and the warnings emitted. -/
def resolveStrategies (lz : LazyStrategy) (cs : CacheStrategy) :
    CacheStrategy × List MkWarning :=
  match lz with
  | .none =>
    if cs ≠ .processed then (.processed, [.cacheStrategyWithNoneLazy])
    else (.processed, [])
  | .process =>
    if cs = .none then (.loaded, [.noneCacheWithProcessLazy]) else (cs, [])
  | .all => (cs, [])

/-- The engine's `self._source` after construction: either a stateless
source chain (random access supported), the `_CachedDataSource` wrapper,
or a `_TransformedDataSource` wrapped around the `_CachedDataSource`
(the second fusion step). In the latter two cases the inner
`CachedDataSource` is also the engine's `self._cached_source`. -/
inductive EngineSource (V : Type) where
  | plain : SourceModel V → EngineSource V
  | cachedSrc : CachedDataSource V → EngineSource V
  | transformedCached : CachedDataSource V → (V → V) → EngineSource V

/-- The mutable state of a `DataBase` instance (the fields of the Python
object that the modelled methods read or write). The four `should*`
fields are the policy flags computed once in `__init__`. -/
structure DataBase (V : Type) where
  lazyStrategy : LazyStrategy
  cacheStrategy : CacheStrategy
  usesMultiProcessing : Bool
  parallelizeProcessing : Bool
  process : V → V
  processedCache : List V
  fullyCached : Bool
  supportsRandomAccess : Bool
  datasetSize : Option Nat
  source : EngineSource V
  reorderCache : List (Nat × V)
  shouldReturnProcessedExamples : Bool
  shouldCallPrefetchSource : Bool
  shouldCallPrefetchProcessed : Bool
  shouldDeleteSourceInAddCache : Bool

namespace DataBase

/-- The random-access probe of `DataBase.__init__`: when the lazy strategy
is not `none`, evaluate `len(self._source)` and `self._source[0]`,
catching only `TypeError` (the capability-unsupported signal). Returns
`(supports_random_access, dataset_size, wrapped engine source)`; any error
other than `TypeError` propagates out of the constructor. -/
def probeSource (lz : LazyStrategy) (cs : CacheStrategy) (src : SourceModel V) :
    Except PyError (Bool × Option Nat × EngineSource V) :=
  if lz = .none then .ok (true, Option.none, .plain src)
  else
    match srcLen src with
    | .error .typeError =>
      .ok (false, Option.none, .cachedSrc (mkCachedSource src (cs ≠ .loaded)))
    | .error e => .error e
    | .ok n =>
      match srcGetItem src 0 with
      | .error .typeError =>
        .ok (false, Option.none, .cachedSrc (mkCachedSource src (cs ≠ .loaded)))
      | .error e => .error e
      | .ok _ => .ok (true, some n.toNat, .plain src)

/-- The second fusion step of `DataBase.__init__`: when processing is not
parallelized and the resolved cache strategy is `loaded`, wrap the current
source in a `_TransformedDataSource`. -/
def fuseLoaded (pp : Bool) (cs : CacheStrategy) (es : EngineSource V) (f : V → V) :
    EngineSource V :=
  if pp = false ∧ cs = .loaded then
    match es with
    | .plain s => .plain (.transformed s f)
    | .cachedSrc c => .transformedCached c f
    | .transformedCached c g => .transformedCached c (fun v => f (g v))
  else es

/-- Iterating the engine's wrapped source (`for raw_example in
self._source`): yielded elements plus the end signal. -/
def engineIterRun : EngineSource V → List V × IterEnd
  | .plain s => iterRun s
  | .cachedSrc c => (c.sourceIter, c.srcEnd)
  | .transformedCached c f => (c.sourceIter.map f, c.srcEnd)

/-- The `while True: max_index *= 2; prefetch(max_index)` loop of
`_prefetch_all_source`, with explicit fuel (`.error .loopBound` marks fuel
exhaustion; for a finite source the loop is proved to terminate before
that). On `StopIteration`, returns the final cached state and
`max_index + 1` as the dataset size. -/
def prefetchAllLoop : Nat → Nat → CachedDataSource V →
    Except PyError (CachedDataSource V × Nat)
  | 0, _, _ => .error .loopBound
  | fuel + 1, target, c =>
    let target2 := target * 2
    match prefetch c (target2 : Int) with
    | (c1, some .stopIteration) => .ok (c1, (c1.maxIndex + 1).toNat)
    | (_, some e) => .error e
    | (c1, Option.none) => prefetchAllLoop fuel target2 c1

/-- Attach the possibly-infinite-source warning to the doubling-loop
result (the tail of `_prefetch_all_source` after the warning was
emitted). -/
def prefetchAllFinish (r : Except PyError (CachedDataSource V × Nat)) :
    Except PyError (CachedDataSource V × Nat × List MkWarning) :=
  match r with
  | .ok (c2, n) => .ok (c2, n, [.possiblyInfiniteSource])
  | .error e => .error e

/-- `DataBase._prefetch_all_source`: prefetch to index `10 ** 8`; if the
source is not exhausted by then, warn about a possibly infinite source and
keep doubling the target until `StopIteration`, which finalises
`dataset_size = max_index + 1`. -/
def prefetchAllSource (c : CachedDataSource V) :
    Except PyError (CachedDataSource V × Nat × List MkWarning) :=
  let maxIndex : Nat := 10 ^ 8
  match prefetch c (maxIndex : Int) with
  | (c1, some .stopIteration) => .ok (c1, (c1.maxIndex + 1).toNat, [])
  | (_, some e) => .error e
  | (c1, Option.none) =>
    prefetchAllFinish (prefetchAllLoop (c1.sourceIter.length + 1) maxIndex c1)

/-- `DataBase.__init__` for a source chain `source` and processing
function `process` (`self._process`). Returns the constructed state and
the warnings emitted, or the propagated error when construction raises. -/
def mkDataBase (source : SourceModel V) (process : V → V) (hp : DataHParams) :
    Except PyError (DataBase V × List MkWarning) :=
  let lz := hp.lazyStrategy
  let res := resolveStrategies lz hp.cacheStrategy
  let cs := res.1
  let usesMulti := decide (1 < hp.numParallelCalls)
  let pp := hp.parallelizeProcessing
  -- max_dataset_size wrapping
  let src1 := if hp.maxDatasetSize = -1 then source
              else .truncated source hp.maxDatasetSize
  -- first fusion step (lazy loading, cache not `loaded`)
  let src2 := if pp = false ∧ lz = .all ∧ cs ≠ .loaded
              then .transformed src1 process else src1
  match probeSource lz cs src2 with
  | .error e => .error e
  | .ok (supports, size0, es0) =>
    let es1 := fuseLoaded pp cs es0 process
    let flagReturnProcessed := decide (lz ≠ .none) && decide (cs = .processed) && pp
    let flagPrefetchSource := decide (lz = .all) && decide (cs = .none)
    let flagPrefetchProcessed := !pp && decide (lz = .process) && decide (cs = .processed)
    let flagDeleteSource := !supports && pp && usesMulti &&
      decide (lz = .process) && decide (cs = .processed)
    if lz = .none then
      match engineIterRun es1 with
      | (ys, .normal) =>
        let pc := ys.map process
        .ok ({ lazyStrategy := lz, cacheStrategy := cs,
               usesMultiProcessing := usesMulti, parallelizeProcessing := pp,
               process := process, processedCache := pc, fullyCached := true,
               supportsRandomAccess := supports, datasetSize := some pc.length,
               source := es1, reorderCache := [],
               shouldReturnProcessedExamples := flagReturnProcessed,
               shouldCallPrefetchSource := flagPrefetchSource,
               shouldCallPrefetchProcessed := flagPrefetchProcessed,
               shouldDeleteSourceInAddCache := flagDeleteSource }, res.2)
      | (_, .errored) => .error .runtimeError
    else
      match (if lz = .process ∧ supports = false then
               match es1 with
               | .cachedSrc c =>
                 (prefetchAllSource c).map
                   (fun (r : CachedDataSource V × Nat × List MkWarning) =>
                     (EngineSource.cachedSrc r.1, some r.2.1, r.2.2))
               | .transformedCached c f =>
                 (prefetchAllSource c).map
                   (fun (r : CachedDataSource V × Nat × List MkWarning) =>
                     (EngineSource.transformedCached r.1 f, some r.2.1, r.2.2))
               | .plain s => .ok (.plain s, size0, [])
             else .ok (es1, size0, ([] : List MkWarning))) with
      | .error e => .error e
      | .ok (es2, size1, w2) =>
        .ok ({ lazyStrategy := lz, cacheStrategy := cs,
               usesMultiProcessing := usesMulti, parallelizeProcessing := pp,
               process := process, processedCache := [], fullyCached := false,
               supportsRandomAccess := supports, datasetSize := size1,
               source := es2, reorderCache := [],
               shouldReturnProcessedExamples := flagReturnProcessed,
               shouldCallPrefetchSource := flagPrefetchSource,
               shouldCallPrefetchProcessed := flagPrefetchProcessed,
               shouldDeleteSourceInAddCache := flagDeleteSource }, res.2 ++ w2)

/-- `__getitem__` on the engine's wrapped source (`self._source[index]`);
threads the state of the `_CachedDataSource` when one is present. -/
def engineSourceGet (es : EngineSource V) (i : Nat) :
    Except PyError (V × EngineSource V) :=
  match es with
  | .plain s => (srcGetItem s i).map (fun v => (v, .plain s))
  | .cachedSrc c => (cachedGet c i).map (fun r => (r.1, .cachedSrc r.2))
  | .transformedCached c f => (cachedGet c i).map (fun r => (f r.1, .transformedCached r.2 f))

/-- `DataBase.__getitem__` with an integer index. -/
def dbGetItem (db : DataBase V) (index : Nat) : Except PyError (V × DataBase V) :=
  if db.fullyCached then
    match listNth db.processedCache index with
    | some v => .ok (v, db)
    | Option.none => .error .indexError
  else if db.parallelizeProcessing = false then
    match engineSourceGet db.source index with
    | .ok r => .ok (r.1, { db with source := r.2 })
    | .error e => .error e
  else
    match engineSourceGet db.source index with
    | .ok r => .ok (db.process r.1, { db with source := r.2 })
    | .error e => .error e

/-- `DataBase.__getitem__` with an `(index, raw_example)` tuple. -/
def dbGetItemPair (db : DataBase V) (pair : Nat × V) : V :=
  if db.parallelizeProcessing = false then pair.2 else db.process pair.2

/-- `db[start], db[start+1], ..., db[start+n-1]` in order, threading the
engine state and collecting the results. -/
def dbGetAllAux (db : DataBase V) : Nat → Nat → Except PyError (List V × DataBase V)
  | _, 0 => .ok ([], db)
  | start, n + 1 =>
    match dbGetItem db start with
    | .error e => .error e
    | .ok (v, db1) =>
      match dbGetAllAux db1 (start + 1) n with
      | .error e => .error e
      | .ok (vs, db2) => .ok (v :: vs, db2)

/-- `db[0], ..., db[n-1]` in order. -/
def dbGetAll (db : DataBase V) (n : Nat) : Except PyError (List V × DataBase V) :=
  dbGetAllAux db 0 n

/-- The per-pair step of `_add_cached_examples`: append when the index is
the next cache position, otherwise stash in the reorder buffer. -/
def addPair (db : DataBase V) (p : Nat × V) : DataBase V :=
  if p.1 = db.processedCache.length then
    { db with processedCache := db.processedCache ++ [p.2] }
  else
    { db with reorderCache := dictInsert db.reorderCache p.1 p.2 }

/-- The draining loop of `_add_cached_examples`
(`while len(self._processed_cache) in self._reorder_cache`), with the
reorder-buffer size as fuel: every iteration deletes one buffer entry, so
the initial size bounds the iteration count. -/
def drainAux : Nat → List V → List (Nat × V) → List V × List (Nat × V)
  | 0, pc, rc => (pc, rc)
  | fuel + 1, pc, rc =>
    match dictLookup rc pc.length with
    | some e => drainAux fuel (pc ++ [e]) (dictDelete rc pc.length)
    | Option.none => (pc, rc)

/-- `del self._cached_source._cache[index]` for each index, as performed by
`_add_cached_examples` when the delete-source policy flag is set. Python
raises `KeyError` for a missing dict key and `AttributeError` when no
`_cached_source` exists. -/
def deleteSourceIndices (db : DataBase V) (indices : List Nat) :
    Except PyError (DataBase V) :=
  let deleteFrom := fun (c : CachedDataSource V)
      (rebuild : CachedDataSource V → EngineSource V) =>
    match c.cache with
    | Cache.dict d =>
      let rec go : List Nat → List (Nat × V) → Except PyError (List (Nat × V))
        | [], d => .ok d
        | k :: ks, d =>
          match dictLookup d k with
          | some _ => go ks (dictDelete d k)
          | Option.none => .error .keyError
      (go indices d).map (fun d' =>
        { db with source := rebuild { c with cache := Cache.dict d' } })
    | Cache.list l =>
      let rec goList : List Nat → List V → Except PyError (List V)
        | [], l => .ok l
        | k :: ks, l =>
          if k < l.length then goList ks (l.eraseIdx k) else .error .indexError
      (goList indices l).map (fun l' =>
        { db with source := rebuild { c with cache := Cache.list l' } })
  match db.source with
  | .cachedSrc c => deleteFrom c EngineSource.cachedSrc
  | .transformedCached c f => deleteFrom c (fun c' => EngineSource.transformedCached c' f)
  | .plain _ => .error .attributeError

/-- `DataBase._add_cached_examples`. -/
def addCachedExamples (db : DataBase V) (indices : List Nat) (examples : List V) :
    Except PyError (DataBase V) :=
  match (if db.shouldDeleteSourceInAddCache then deleteSourceIndices db indices
         else .ok db) with
  | .error e => .error e
  | .ok db1 =>
    let db2 := (indices.zip examples).foldl addPair db1
    let dr := drainAux db2.reorderCache.length db2.processedCache db2.reorderCache
    let db3 := { db2 with processedCache := dr.1, reorderCache := dr.2 }
    .ok (if db3.datasetSize = some db3.processedCache.length
         then { db3 with fullyCached := true } else db3)

/-- A sequence of `_add_cached_examples` calls (one per batch returned by
the worker pool). -/
def addSeq (db : DataBase V) (batches : List (List Nat × List V)) :
    Except PyError (DataBase V) :=
  match batches with
  | [] => .ok db
  | b :: rest =>
    match addCachedExamples db b.1 b.2 with
    | .error e => .error e
    | .ok db1 => addSeq db1 rest

/-- The `processed_cache` produced by construction (projection helper). -/
def cacheOfMk (source : SourceModel V) (process : V → V) (hp : DataHParams) :
    Except PyError (List V) :=
  (mkDataBase source process hp).map (fun r => r.1.processedCache)

/-- The sequence obtained by constructing and then reading indices
`0..n-1` in order (projection helper). -/
def getAllOfMk (source : SourceModel V) (process : V → V) (hp : DataHParams)
    (n : Nat) : Except PyError (List V) :=
  match mkDataBase source process hp with
  | .error e => .error e
  | .ok (db, _) => (dbGetAll db n).map (fun r => r.1)

end DataBase

/-! ### Claim theorems -/

open SourceModel CachedDataSource DataBase

namespace DataBase

/-- A lazily-constructed engine over a 3-element random-access dataset
with a processed cache, awaiting results from parallel workers (the state
relevant to `_add_cached_examples`). -/
def exampleDB : DataBase Nat :=
  { lazyStrategy := .all, cacheStrategy := .processed,
    usesMultiProcessing := false, parallelizeProcessing := true,
    process := id, processedCache := [], fullyCached := false,
    supportsRandomAccess := true, datasetSize := some 3,
    source := .plain (.sequenceSource [0, 1, 2]), reorderCache := [],
    shouldReturnProcessedExamples := true, shouldCallPrefetchSource := false,
    shouldCallPrefetchProcessed := false, shouldDeleteSourceInAddCache := false }

/-- After the draining loop (run with the reorder-buffer size as fuel,
which suffices because every iteration deletes one entry), the buffer
holds no entry for the next cache position. -/
theorem drainAux_lookup_none (fuel : Nat) :
    ∀ (pc : List V) (rc : List (Nat × V)), rc.length ≤ fuel →
      dictLookup (drainAux fuel pc rc).2 (drainAux fuel pc rc).1.length
        = Option.none := by
  induction fuel with
  | zero =>
    intro pc rc hlen
    have : rc = [] := List.length_eq_zero.1 (Nat.le_zero.1 hlen)
    subst this
    rfl
  | succ fuel ih =>
    intro pc rc hlen
    simp only [drainAux]
    cases hl : dictLookup rc pc.length with
    | none => exact hl
    | some e =>
      refine ih _ _ ?_
      have := dictDelete_length_lt rc pc.length e hl
      omega

end DataBase

/-- Claim C2: in `_add_cached_examples`, each ingested `(index, example)`
pair is appended to `processed_cache` exactly when its index equals the
current cache length, and stashed in the reorder buffer otherwise; after
each batch the reorder buffer is drained of contiguous next entries (so it
never holds an entry for the next cache position on return); and feeding
indices `[2, 0, 1]` (one per batch) into a 3-element dataset yields
`processed_cache = [e0, e1, e2]`, with `fully_cached` becoming true only
after the third ingestion. -/
theorem claim_C2 :
    (∀ (V : Type) (db : DataBase V) (i : Nat) (e : V),
      (addPair db (i, e)).processedCache
          = (if i = db.processedCache.length
             then db.processedCache ++ [e] else db.processedCache) ∧
      (addPair db (i, e)).reorderCache
          = (if i = db.processedCache.length
             then db.reorderCache else dictInsert db.reorderCache i e)) ∧
    (∀ (V : Type) (db db' : DataBase V) (indices : List Nat) (examples : List V),
      addCachedExamples db indices examples = .ok db' →
      dictLookup db'.reorderCache db'.processedCache.length = Option.none) ∧
    (addSeq exampleDB [([2], [12])]).map
        (fun d => (d.processedCache, d.fullyCached)) = .ok ([], false) ∧
    (addSeq exampleDB [([2], [12]), ([0], [10])]).map
        (fun d => (d.processedCache, d.fullyCached)) = .ok ([10], false) ∧
    (addSeq exampleDB [([2], [12]), ([0], [10]), ([1], [11])]).map
        (fun d => (d.processedCache, d.fullyCached)) = .ok ([10, 11, 12], true) := by
  refine ⟨?_, ?_, rfl, rfl, rfl⟩
  · intro W db i e
    by_cases h : i = db.processedCache.length <;> simp [addPair, h]
  · intro W db db' indices examples h
    unfold addCachedExamples at h
    split at h
    · exact absurd h (by simp)
    · simp only [Except.ok.injEq] at h
      subst h
      split
      · exact drainAux_lookup_none _ _ _ (le_refl _)
      · exact drainAux_lookup_none _ _ _ (le_refl _)

/-- Witness for C2's drain conjunct at a concrete ingestion. -/
theorem claim_C2_witness :
    dictLookup ([(2, 12)] : List (Nat × Nat)) 0 = Option.none := by
  simpa using claim_C2.2.1 Nat exampleDB
    { exampleDB with reorderCache := [(2, 12)] } [2] [12] rfl

theorem listNth_map (f : V → V) (l : List V) (i : Nat) :
    listNth (l.map f) i = (listNth l i).map f := by
  induction l generalizing i with
  | nil => simp
  | cons v rest ih =>
    cases i with
    | zero => rfl
    | succ i => exact ih i

theorem get_map_eq (f : V → V) (l : List V) (i : Nat) (h : i < (l.map f).length) :
    (l.map f).get ⟨i, h⟩ = f (l.get ⟨i, by simpa using h⟩) := by
  have h3 := listNth_map f l i
  rw [listNth_eq_get (l.map f) i h, listNth_eq_get l i (by simpa using h),
    Option.map_some'] at h3
  exact Option.some.inj h3

namespace SourceModel

theorem srcGetItem_seq (l : List V) (i : Nat) (h : i < l.length) :
    srcGetItem (.sequenceSource l) i = .ok (l.get ⟨i, h⟩) := by
  simp [srcGetItem, listNth_eq_get l i h]

end SourceModel

namespace DataBase

/-- The engine state built by `mkDataBase` for a nonempty random-access
sequence source under a lazy strategy and default remaining
hyperparameters. -/
def lazySeqDB (l : List V) (f : V → V) (lz : LazyStrategy) (cs : CacheStrategy)
    (pp : Bool) : DataBase V :=
  { lazyStrategy := lz, cacheStrategy := (resolveStrategies lz cs).1,
    usesMultiProcessing := false, parallelizeProcessing := pp, process := f,
    processedCache := [], fullyCached := false, supportsRandomAccess := true,
    datasetSize := some l.length,
    source := fuseLoaded pp (resolveStrategies lz cs).1
      (.plain (if pp = false ∧ lz = .all ∧ (resolveStrategies lz cs).1 ≠ .loaded
               then .transformed (.sequenceSource l) f else .sequenceSource l)) f,
    reorderCache := [],
    shouldReturnProcessedExamples :=
      decide (lz ≠ .none) && decide ((resolveStrategies lz cs).1 = .processed) && pp,
    shouldCallPrefetchSource :=
      decide (lz = .all) && decide ((resolveStrategies lz cs).1 = .none),
    shouldCallPrefetchProcessed :=
      !pp && decide (lz = .process) && decide ((resolveStrategies lz cs).1 = .processed),
    shouldDeleteSourceInAddCache := false }

/-- Reading `db[start], ..., db[start+n-1]` when every read returns the
matching element of `out` and leaves the state unchanged. -/
theorem dbGetAllAux_const (db : DataBase V) (out : List V) :
    ∀ (start : Nat),
      (∀ i (h : i < out.length), dbGetItem db (start + i) = .ok (out.get ⟨i, h⟩, db)) →
      dbGetAllAux db start out.length = .ok (out, db) := by
  induction out with
  | nil => intro start h; rfl
  | cons v vs ih =>
    intro start h
    have h0 := h 0 (by simp)
    rw [Nat.add_zero] at h0
    have hrec := ih (start + 1) (fun i hi => by
      have := h (i + 1) (by simpa using Nat.succ_lt_succ hi)
      rwa [show start + (i + 1) = start + 1 + i from by omega] at this)
    show dbGetAllAux db start (vs.length + 1) = .ok (v :: vs, db)
    simp [dbGetAllAux, h0, hrec]

/-- Construction of the lazy engine over a nonempty sequence source. -/
theorem mkDataBase_seq_lazy (l : List V) (f : V → V) (lz : LazyStrategy)
    (cs : CacheStrategy) (pp : Bool) (hlz : lz ≠ .none) (hne : l ≠ []) :
    mkDataBase (.sequenceSource l) f ⟨lz, cs, pp, 1, -1⟩
      = .ok (lazySeqDB l f lz cs pp, (resolveStrategies lz cs).2) := by
  obtain ⟨a, rest, rfl⟩ := List.exists_cons_of_ne_nil hne
  have hget : ∃ x, srcGetItem
      (if pp = false ∧ lz = LazyStrategy.all ∧
          (resolveStrategies lz cs).1 ≠ CacheStrategy.loaded
       then SourceModel.transformed (SourceModel.sequenceSource (a :: rest)) f
       else SourceModel.sequenceSource (a :: rest)) 0 = .ok x := by
    split
    · exact ⟨f a, rfl⟩
    · exact ⟨a, rfl⟩
  obtain ⟨x, hget⟩ := hget
  have hlen : srcLen
      (if pp = false ∧ lz = LazyStrategy.all ∧
          (resolveStrategies lz cs).1 ≠ CacheStrategy.loaded
       then SourceModel.transformed (SourceModel.sequenceSource (a :: rest)) f
       else SourceModel.sequenceSource (a :: rest))
      = .ok (rest.length + 1) := by
    split
    · rw [srcLen_transformed, srcLen_seq]
      simp
    · rw [srcLen_seq]
      simp
  have hprobe : probeSource lz (resolveStrategies lz cs).1
      (if pp = false ∧ lz = LazyStrategy.all ∧
          (resolveStrategies lz cs).1 ≠ CacheStrategy.loaded
       then SourceModel.transformed (SourceModel.sequenceSource (a :: rest)) f
       else SourceModel.sequenceSource (a :: rest))
      = .ok (true, some (rest.length + 1),
          .plain (if pp = false ∧ lz = LazyStrategy.all ∧
              (resolveStrategies lz cs).1 ≠ CacheStrategy.loaded
            then SourceModel.transformed (SourceModel.sequenceSource (a :: rest)) f
            else SourceModel.sequenceSource (a :: rest))) := by
    rw [probeSource, if_neg hlz, hlen, hget]
    rfl
  simp only [ne_eq] at hprobe
  simp only [mkDataBase, ne_eq, show ((-1 : Int) = -1) ↔ True from by simp, if_true]
  rw [hprobe]
  simp [lazySeqDB, hlz]

/-- Reading any in-range index from the lazily-constructed engine yields
the processed element and leaves the state unchanged — except in the
configuration `(laziness=process, cache=processed,
parallelize_processing=false)`, which is excluded here. -/
theorem lazySeqDB_getItem (l : List V) (f : V → V) (lz : LazyStrategy)
    (cs : CacheStrategy) (pp : Bool) (hlz : lz ≠ .none)
    (hexc : ¬(lz = .process ∧ cs = .processed ∧ pp = false))
    (i : Nat) (h : i < l.length) :
    dbGetItem (lazySeqDB l f lz cs pp) i
      = .ok (f (l.get ⟨i, h⟩), lazySeqDB l f lz cs pp) := by
  cases lz with
  | none => exact absurd rfl hlz
  | process =>
    cases cs with
    | processed =>
      cases pp with
      | false => exact absurd ⟨rfl, rfl, rfl⟩ hexc
      | true =>
        simp [lazySeqDB, dbGetItem, engineSourceGet, fuseLoaded, resolveStrategies,
          srcGetItem, listNth_eq_get l i h, Except.map]
    | none =>
      cases pp <;>
        simp [lazySeqDB, dbGetItem, engineSourceGet, fuseLoaded, resolveStrategies,
          srcGetItem, listNth_eq_get l i h, Except.map]
    | loaded =>
      cases pp <;>
        simp [lazySeqDB, dbGetItem, engineSourceGet, fuseLoaded, resolveStrategies,
          srcGetItem, listNth_eq_get l i h, Except.map]
  | all =>
    cases cs <;> cases pp <;>
      simp [lazySeqDB, dbGetItem, engineSourceGet, fuseLoaded, resolveStrategies,
        srcGetItem, listNth_eq_get l i h, Except.map]

end DataBase

/-- Claim C1 (amended): for every nonempty bounded random-access source
and processing function, eager construction (`laziness=none`, any
requested cache/parallelization) produces a `processed_cache` equal to the
sequence obtained by reading indices `0..N-1` in order from a lazy-mode
pipeline (`laziness ∈ {process, all}`, any cache/parallelization except
the combination `laziness=process ∧ cache=processed ∧
parallelize_processing=false`, where reads return raw examples); both
equal `map f l`. The nonemptiness and the excluded combination are forced
by `claim_C1_counterexample`. -/
theorem claim_C1 :
    ∀ (V : Type) (l : List V) (f : V → V) (lz : LazyStrategy)
      (cs csE : CacheStrategy) (pp ppE : Bool),
      l ≠ [] → lz ≠ .none →
      ¬(lz = .process ∧ cs = .processed ∧ pp = false) →
      cacheOfMk (.sequenceSource l) f ⟨.none, csE, ppE, 1, -1⟩ = .ok (l.map f) ∧
      getAllOfMk (.sequenceSource l) f ⟨lz, cs, pp, 1, -1⟩ l.length = .ok (l.map f) := by
  intro W l f lz cs csE pp ppE hne hlz hexc
  constructor
  · cases csE <;>
      simp [cacheOfMk, mkDataBase, resolveStrategies, probeSource, fuseLoaded,
        engineIterRun, iterRun, Except.map]
  · have hall := dbGetAllAux_const (lazySeqDB l f lz cs pp) (l.map f) 0 (fun i hi => by
      rw [Nat.zero_add, get_map_eq f l i hi]
      exact lazySeqDB_getItem l f lz cs pp hlz hexc i (by simpa using hi))
    simp only [getAllOfMk, mkDataBase_seq_lazy l f lz cs pp hlz hne]
    show (dbGetAll (lazySeqDB l f lz cs pp) l.length).map (fun r => r.1) = .ok (l.map f)
    rw [dbGetAll, show l.length = (l.map f).length from (List.length_map l f).symm, hall]
    rfl

/-- Witness for C1 at a concrete two-element source. -/
theorem claim_C1_witness :
    cacheOfMk (.sequenceSource [3, 4]) (fun v => v + 1) ⟨.none, .none, false, 1, -1⟩
      = .ok [4, 5] ∧
    getAllOfMk (.sequenceSource [3, 4]) (fun v => v + 1) ⟨.all, .loaded, true, 1, -1⟩ 2
      = .ok [4, 5] := by
  simpa using claim_C1 Nat [3, 4] (fun v => v + 1) .all .loaded .none true false
    (by decide) (by decide) (by decide)

/-- Counterexample to C1 as stated: (a) over the empty source the eager
pipeline constructs with an empty cache but the lazy pipeline cannot be
constructed at all (the probe raises `IndexError`), so no read sequence
exists; (b) in the configuration `laziness=process, cache=processed,
parallelize_processing=false`, reads return raw examples (`5`) while the
eager cache holds processed ones (`6`). -/
theorem claim_C1_counterexample :
    cacheOfMk (.sequenceSource ([] : List Nat)) (fun v => v + 1)
      ⟨.none, .processed, true, 1, -1⟩ = .ok [] ∧
    mkDataBase (.sequenceSource ([] : List Nat)) (fun v => v + 1)
      ⟨.all, .processed, true, 1, -1⟩ = .error .indexError ∧
    cacheOfMk (.sequenceSource [5]) (fun v => v + 1)
      ⟨.none, .processed, false, 1, -1⟩ = .ok [6] ∧
    getAllOfMk (.sequenceSource [5]) (fun v => v + 1)
      ⟨.process, .processed, false, 1, -1⟩ 1 = .ok [5] :=
  ⟨rfl, rfl, rfl, rfl⟩

/-- Claim C3: construction resolves the requested `(laziness, cache)` pair
as follows: `laziness=none` forces the resolved cache strategy to
`processed` regardless of the requested cache (warning exactly when the
requested cache differed); `laziness=process` with requested `cache=none`
resolves to `cache=loaded` with a warning; `laziness=all` leaves every
requested cache value unchanged (and warns about nothing). -/
theorem claim_C3 :
    (∀ cs : CacheStrategy,
      resolveStrategies .none cs =
        (.processed,
         if cs = .processed then [] else [MkWarning.cacheStrategyWithNoneLazy])) ∧
    resolveStrategies .process .none = (.loaded, [MkWarning.noneCacheWithProcessLazy]) ∧
    (∀ cs : CacheStrategy, resolveStrategies .all cs = (cs, [])) := by
  refine ⟨fun cs => ?_, rfl, fun cs => rfl⟩
  cases cs <;> rfl

/-- Claim C7: for every source `s` and bound `n`, the truncated source's
`__getitem__` raises `IndexError` for every index `i ≥ n`; its iteration
stops (normally) after `n` elements whenever the wrapped source yields at
least `n` elements; its `__len__` is `min(len(s), n)` when `len(s)` is
known and exactly `n` when the wrapped source's length is unsupported; and
`Truncate(SequenceSource([1..10]), 3)` iterates exactly `[1,2,3]` while
`get(3)` raises `IndexError`. -/
theorem claim_C7 :
    (∀ (V : Type) (s : SourceModel V) (n i : Nat), n ≤ i →
      srcGetItem (.truncated s n) i = .error .indexError) ∧
    (∀ (V : Type) (s : SourceModel V) (n : Nat), n ≤ (iterRun s).1.length →
      iterRun (.truncated s n) = ((iterRun s).1.take n, .normal)) ∧
    (∀ (V : Type) (s : SourceModel V) (n m : Nat), srcLen s = .ok m →
      srcLen (.truncated s n) = .ok (min m n)) ∧
    (∀ (V : Type) (s : SourceModel V) (n : Nat), srcLen s = .error .typeError →
      srcLen (.truncated s n) = .ok n) ∧
    iterRun (.truncated (.sequenceSource [1, 2, 3, 4, 5, 6, 7, 8, 9, 10]) 3)
      = ([1, 2, 3], .normal) ∧
    srcGetItem (.truncated (.sequenceSource [1, 2, 3, 4, 5, 6, 7, 8, 9, 10]) 3) 3
      = .error .indexError := by
  refine ⟨?_, ?_, ?_, ?_, rfl, rfl⟩
  · intro W s n i h
    simp only [srcGetItem]
    rw [if_pos (by exact_mod_cast h : (n : Int) ≤ (i : Int))]
  · intro W s n h
    simp only [iterRun]
    rw [show ((n : Int)).toNat = n from by omega]
    exact truncIterAux_of_le _ _ _ h
  · intro W s n m h
    have hd := (srcLen_ok_inv s (m : Int) h).1
    refine srcLen_eval _ _ ?_ (by omega)
    simp only [dunderLen, hd]
    rw [if_neg (by omega : ¬((m : Int) < 0))]
  · intro W s n h
    have hd := srcLen_typeError_inv s h
    refine srcLen_eval _ _ ?_ (by omega)
    simp only [dunderLen, hd]

/-- Witness for C7 at concrete inputs. -/
theorem claim_C7_witness :
    srcGetItem (.truncated (.sequenceSource [7, 8]) 1) 2 = .error .indexError ∧
    iterRun (.truncated (.sequenceSource [7, 8]) 1) = ([7], .normal) ∧
    srcLen (.truncated (.sequenceSource [7, 8]) 1) = .ok (min 2 1) ∧
    srcLen (.truncated (.iterSource ([7] : List Nat)) 4) = .ok 4 :=
  ⟨claim_C7.1 Nat (.sequenceSource [7, 8]) 1 2 (by decide),
   by simpa using claim_C7.2.1 Nat (.sequenceSource [7, 8]) 1 (by decide),
   claim_C7.2.2.1 Nat (.sequenceSource [7, 8]) 1 2 rfl,
   claim_C7.2.2.2.1 Nat (.iterSource [7]) 4 rfl⟩

theorem listNth_lt_length (l : List V) (n : Nat) (v : V)
    (h : listNth l n = some v) : n < l.length := by
  by_contra hge
  rw [(listNth_eq_none_iff l n).2 (le_of_not_lt hge)] at h
  exact Option.noConfusion h

theorem take_succ_of_listNth (l : List V) (n : Nat) (v : V)
    (h : listNth l n = some v) : l.take (n + 1) = l.take n ++ [v] := by
  induction l generalizing n with
  | nil => simp [listNth] at h
  | cons w rest ih =>
    cases n with
    | zero =>
      simp only [listNth] at h
      cases h
      simp
    | succ n =>
      simp only [listNth] at h
      simp [List.take_succ_cons, ih n h]

namespace CachedDataSource

theorem prefetch_reached_of_no_raise (c : CachedDataSource V) (i : Int)
    (h : (prefetch c i).2 = Option.none) : i ≤ (prefetch c i).1.maxIndex :=
  prefetchAux_reached_of_no_raise i _ c rfl h

theorem prefetch_raised_exhausted (c : CachedDataSource V) (i : Int) (e : PyError)
    (h : (prefetch c i).2 = some e) :
    (prefetch c i).1.sourceIter.length ≤ (prefetch c i).1.pos :=
  prefetchAux_raised_exhausted i _ c e h

/-- `__getitem__` never touches the iterator state: only the cache can
change. -/
theorem applyOp_getAt_fields (c : CachedDataSource V) (i : Nat) :
    (applyOp c (.getAt i)).maxIndex = c.maxIndex ∧
    (applyOp c (.getAt i)).pos = c.pos ∧
    (applyOp c (.getAt i)).sourceIter = c.sourceIter ∧
    (applyOp c (.getAt i)).srcEnd = c.srcEnd ∧
    (applyOp c (.getAt i)).eraseAfterAccess = c.eraseAfterAccess := by
  rcases c with ⟨src, se, pos, m, er, cache⟩
  cases cache with
  | dict d =>
    simp only [applyOp, cachedGet]
    cases dictLookup d i with
    | none => exact ⟨rfl, rfl, rfl, rfl, rfl⟩
    | some v => cases er <;> simp
  | list l =>
    simp only [applyOp, cachedGet]
    cases listNth l i with
    | none => exact ⟨rfl, rfl, rfl, rfl, rfl⟩
    | some v => cases er <;> simp

/-- In retain mode, `__getitem__` never changes the state at all. -/
theorem applyOp_getAt_of_retain (c : CachedDataSource V) (i : Nat)
    (her : c.eraseAfterAccess = false) : applyOp c (.getAt i) = c := by
  rcases c with ⟨src, se, pos, m, er, cache⟩
  cases her
  cases cache with
  | dict d =>
    simp only [applyOp, cachedGet]
    cases dictLookup d i <;> simp
  | list l =>
    simp only [applyOp, cachedGet]
    cases listNth l i <;> simp

/-- The retain-mode state invariant: the cache is the list of the first
`pos` elements of the source order and `max_index` is `pos - 1`. -/
def RetainInv (src : List V) (c : CachedDataSource V) : Prop :=
  c.eraseAfterAccess = false ∧ c.sourceIter = src ∧
  c.maxIndex = (c.pos : Int) - 1 ∧ c.pos ≤ src.length ∧
  c.cache = Cache.list (src.take c.pos)

theorem prefetchAux_retainInv (src : List V) (i : Int) (fuel : Nat)
    (c : CachedDataSource V) (hInv : RetainInv src c) :
    RetainInv src (prefetchAux i fuel c).1 := by
  induction fuel generalizing c with
  | zero => exact hInv
  | succ fuel ih =>
    obtain ⟨her, hsrc, hmx, hle, hcache⟩ := hInv
    simp only [prefetchAux]
    by_cases hlt : c.maxIndex < i
    · simp only [if_pos hlt]
      cases hg : listNth c.sourceIter c.pos with
      | none => exact ⟨her, hsrc, hmx, hle, hcache⟩
      | some ex =>
        have hg' : listNth src c.pos = some ex := by rw [← hsrc]; exact hg
        have hlt' : c.pos < src.length := listNth_lt_length _ _ _ hg'
        refine ih _ ⟨her, hsrc, ?_, ?_, ?_⟩
        · show c.maxIndex + 1 = ((c.pos + 1 : Nat) : Int) - 1
          push_cast
          omega
        · show c.pos + 1 ≤ src.length
          omega
        · show storeCache c.eraseAfterAccess c.cache (c.maxIndex + 1).toNat ex
            = Cache.list (src.take (c.pos + 1))
          rw [her, hcache, take_succ_of_listNth src c.pos ex hg']
          simp [storeCache]
    · simp only [if_neg hlt]
      exact ⟨her, hsrc, hmx, hle, hcache⟩

theorem applyOp_retainInv (src : List V) (c : CachedDataSource V) (op : CSOp)
    (hInv : RetainInv src c) : RetainInv src (applyOp c op) := by
  cases op with
  | prefetchTo i => exact prefetchAux_retainInv src i _ c hInv
  | getAt i => rw [applyOp_getAt_of_retain c i hInv.1]; exact hInv
  | resetOp =>
    show RetainInv src (reset c)
    rw [reset, if_neg (by rw [hInv.1]; simp)]
    exact hInv

theorem foldl_retainInv (src : List V) (c : CachedDataSource V)
    (ops : List CSOp) (hInv : RetainInv src c) :
    RetainInv src (ops.foldl applyOp c) := by
  induction ops generalizing c with
  | nil => exact hInv
  | cons op ops ih => exact ih _ (applyOp_retainInv src c op hInv)

end CachedDataSource

namespace CachedDataSource

theorem prefetchAux_link (i : Int) (fuel : Nat) (c : CachedDataSource V)
    (hlink : c.maxIndex = (c.pos : Int) - 1) :
    (prefetchAux i fuel c).1.maxIndex = ((prefetchAux i fuel c).1.pos : Int) - 1 := by
  induction fuel generalizing c with
  | zero => exact hlink
  | succ fuel ih =>
    simp only [prefetchAux]
    by_cases hlt : c.maxIndex < i
    · simp only [if_pos hlt]
      cases hg : listNth c.sourceIter c.pos with
      | none => exact hlink
      | some ex =>
        refine ih _ ?_
        show c.maxIndex + 1 = ((c.pos + 1 : Nat) : Int) - 1
        push_cast
        omega
    · simp only [if_neg hlt]
      exact hlink

theorem prefetchAux_maxIndex_le (i : Int) (fuel : Nat) (c : CachedDataSource V) :
    (prefetchAux i fuel c).1.maxIndex ≤ max c.maxIndex i := by
  induction fuel generalizing c with
  | zero => exact le_max_left _ _
  | succ fuel ih =>
    simp only [prefetchAux]
    by_cases hlt : c.maxIndex < i
    · simp only [if_pos hlt]
      cases hg : listNth c.sourceIter c.pos with
      | none => exact le_max_left _ _
      | some ex =>
        refine le_trans (ih _) ?_
        show max (c.maxIndex + 1) i ≤ max c.maxIndex i
        omega
    · simp only [if_neg hlt]
      exact le_max_left _ _

theorem prefetchAux_pos_le (i : Int) (fuel : Nat) (c : CachedDataSource V)
    (hle : c.pos ≤ c.sourceIter.length) :
    (prefetchAux i fuel c).1.pos ≤ c.sourceIter.length := by
  induction fuel generalizing c with
  | zero => exact hle
  | succ fuel ih =>
    simp only [prefetchAux]
    by_cases hlt : c.maxIndex < i
    · simp only [if_pos hlt]
      cases hg : listNth c.sourceIter c.pos with
      | none => exact hle
      | some ex =>
        have hp := listNth_lt_length _ _ _ hg
        exact ih _ (by show c.pos + 1 ≤ c.sourceIter.length; omega)
    · simp only [if_neg hlt]
      exact hle

theorem prefetchAux_raised_lt (i : Int) (fuel : Nat) (c : CachedDataSource V)
    (e : PyError) (hr : (prefetchAux i fuel c).2 = some e) :
    (prefetchAux i fuel c).1.maxIndex < i := by
  induction fuel generalizing c with
  | zero => simp [prefetchAux] at hr
  | succ fuel ih =>
    simp only [prefetchAux] at hr ⊢
    by_cases hlt : c.maxIndex < i
    · simp only [if_pos hlt] at hr ⊢
      cases hg : listNth c.sourceIter c.pos with
      | none => simpa [hg] using hlt
      | some ex =>
        simp only [hg] at hr ⊢
        exact ih { c with
          pos := c.pos + 1, maxIndex := c.maxIndex + 1,
          cache := storeCache c.eraseAfterAccess c.cache (c.maxIndex + 1).toNat ex } hr
    · simp [if_neg hlt] at hr

theorem prefetchAux_raised_err (i : Int) (fuel : Nat) (c : CachedDataSource V)
    (e : PyError) (hr : (prefetchAux i fuel c).2 = some e) :
    e = (if c.srcEnd = .normal then PyError.stopIteration else PyError.runtimeError) := by
  induction fuel generalizing c with
  | zero => simp [prefetchAux] at hr
  | succ fuel ih =>
    simp only [prefetchAux] at hr
    by_cases hlt : c.maxIndex < i
    · simp only [if_pos hlt] at hr
      cases hg : listNth c.sourceIter c.pos with
      | none =>
        simp only [hg] at hr
        cases hr
        rfl
      | some ex =>
        simp only [hg] at hr
        exact ih { c with
          pos := c.pos + 1, maxIndex := c.maxIndex + 1,
          cache := storeCache c.eraseAfterAccess c.cache (c.maxIndex + 1).toNat ex } hr
    · simp [if_neg hlt] at hr

theorem prefetch_frozen (c : CachedDataSource V) (i : Int) :
    (prefetch c i).1.sourceIter = c.sourceIter ∧
    (prefetch c i).1.srcEnd = c.srcEnd ∧
    (prefetch c i).1.eraseAfterAccess = c.eraseAfterAccess :=
  prefetchAux_frozen i _ c

theorem prefetch_link (c : CachedDataSource V) (i : Int)
    (hlink : c.maxIndex = (c.pos : Int) - 1) :
    (prefetch c i).1.maxIndex = ((prefetch c i).1.pos : Int) - 1 :=
  prefetchAux_link i _ c hlink

theorem prefetch_maxIndex_le (c : CachedDataSource V) (i : Int) :
    (prefetch c i).1.maxIndex ≤ max c.maxIndex i :=
  prefetchAux_maxIndex_le i _ c

theorem prefetch_pos_le (c : CachedDataSource V) (i : Int)
    (hle : c.pos ≤ c.sourceIter.length) :
    (prefetch c i).1.pos ≤ c.sourceIter.length :=
  prefetchAux_pos_le i _ c hle

theorem prefetch_raised_lt (c : CachedDataSource V) (i : Int) (e : PyError)
    (hr : (prefetch c i).2 = some e) : (prefetch c i).1.maxIndex < i :=
  prefetchAux_raised_lt i _ c e hr

theorem prefetch_raised_err (c : CachedDataSource V) (i : Int) (e : PyError)
    (hr : (prefetch c i).2 = some e) :
    e = (if c.srcEnd = .normal then PyError.stopIteration else PyError.runtimeError) :=
  prefetchAux_raised_err i _ c e hr

theorem prefetch_raised_exhausted' (c : CachedDataSource V) (i : Int) (e : PyError)
    (hr : (prefetch c i).2 = some e) :
    c.sourceIter.length ≤ (prefetch c i).1.pos := by
  have h := prefetchAux_raised_exhausted i ((i - c.maxIndex).toNat) c e hr
  have hfr := prefetchAux_frozen i ((i - c.maxIndex).toNat) c
  rw [hfr.1] at h
  exact h

/-- Exact specification of a successful `prefetch` run: when the target
lies strictly inside the source, `prefetch` pulls exactly up to it. -/
theorem prefetch_success_spec (c : CachedDataSource V) (k : Nat)
    (hlink : c.maxIndex = (c.pos : Int) - 1)
    (hle : c.pos ≤ c.sourceIter.length)
    (hmx : c.maxIndex < (k : Int)) (hk : k < c.sourceIter.length) :
    (prefetch c (k : Int)).2 = Option.none ∧
    (prefetch c (k : Int)).1.maxIndex = (k : Int) ∧
    (prefetch c (k : Int)).1.pos = k + 1 := by
  have hlink' := prefetch_link c (k : Int) hlink
  have hposle := prefetch_pos_le c (k : Int) hle
  have hnone : (prefetch c (k : Int)).2 = Option.none := by
    cases hb : (prefetch c (k : Int)).2 with
    | none => rfl
    | some e =>
      exfalso
      have h1 := prefetch_raised_lt c (k : Int) e hb
      have h2 := prefetch_raised_exhausted' c (k : Int) e hb
      -- max_index = pos - 1 ≥ len - 1 ≥ k contradicts max_index < k
      omega
  have hreach := prefetch_reached_of_no_raise c (k : Int) hnone
  have hub := prefetch_maxIndex_le c (k : Int)
  exact ⟨hnone, by omega, by omega⟩

/-- Exact specification of an exhausting `prefetch` run: when the target
is at or past the end of the source, `prefetch` consumes the remaining
elements and propagates the end-of-source signal, leaving
`max_index = len - 1`. -/
theorem prefetch_raise_spec (c : CachedDataSource V) (k : Nat)
    (hlink : c.maxIndex = (c.pos : Int) - 1)
    (hle : c.pos ≤ c.sourceIter.length)
    (hk : c.sourceIter.length ≤ k) :
    (prefetch c (k : Int)).2
      = some (if c.srcEnd = .normal then PyError.stopIteration else PyError.runtimeError) ∧
    (prefetch c (k : Int)).1.maxIndex = (c.sourceIter.length : Int) - 1 ∧
    (prefetch c (k : Int)).1.pos = c.sourceIter.length := by
  have hlink' := prefetch_link c (k : Int) hlink
  have hposle := prefetch_pos_le c (k : Int) hle
  cases hb : (prefetch c (k : Int)).2 with
  | none =>
    exfalso
    have hreach := prefetch_reached_of_no_raise c (k : Int) hb
    omega
  | some e =>
    have h2 := prefetch_raised_exhausted' c (k : Int) e hb
    have herr := prefetch_raised_err c (k : Int) e hb
    refine ⟨by rw [herr], by omega, by omega⟩

end CachedDataSource

/-- Claim C5: in erase-after-access mode, a successful `get(index)`
removes the entry, so a second `get` of the same index raises the
missing-cache-entry error (`KeyError`), as does `get` of an index absent
from the buffer; in retain mode (`cache=loaded`), `get` leaves the state
unchanged and a second read returns a structurally identical result; and
at the engine level, once the processed cache is complete
(`fully_cached`), reading the same index twice returns the identical
result with unchanged state. -/
theorem claim_C5 :
    (∀ (V : Type) (c : CachedDataSource V) (d : List (Nat × V)) (i : Nat)
       (x : V) (c' : CachedDataSource V),
      c.eraseAfterAccess = true → c.cache = Cache.dict d →
      (d.map Prod.fst).Nodup → cachedGet c i = .ok (x, c') →
      cachedGet c' i = .error .keyError) ∧
    (∀ (V : Type) (c : CachedDataSource V) (d : List (Nat × V)) (i : Nat),
      c.cache = Cache.dict d → dictLookup d i = Option.none →
      cachedGet c i = .error .keyError) ∧
    (∀ (V : Type) (c : CachedDataSource V) (i : Nat) (x : V)
       (c' : CachedDataSource V),
      c.eraseAfterAccess = false → cachedGet c i = .ok (x, c') →
      c' = c ∧ cachedGet c i = .ok (x, c)) ∧
    (∀ (V : Type) (db : DataBase V) (i : Nat) (v : V) (db' : DataBase V),
      db.fullyCached = true → dbGetItem db i = .ok (v, db') →
      db' = db ∧ dbGetItem db i = .ok (v, db)) := by
  refine ⟨?_, ?_, ?_, ?_⟩
  · intro W c d i x c' her hd hnd hget
    simp only [cachedGet, hd] at hget
    cases hl : dictLookup d i with
    | none => simp [hl] at hget
    | some v =>
      simp only [hl, her, if_pos rfl] at hget
      cases hget
      simp [cachedGet, dictLookup_dictDelete d i hnd]
  · intro W c d i hd hl
    simp [cachedGet, hd, hl]
  · intro W c i x c' her hget
    rcases c with ⟨src, se, pos, m, er, cache⟩
    cases her
    cases cache with
    | dict d =>
      cases hl : dictLookup d i with
      | none => simp [cachedGet, hl] at hget
      | some v =>
        simp only [cachedGet, hl] at hget
        rw [if_neg (by simp)] at hget
        simp only [Except.ok.injEq, Prod.mk.injEq] at hget
        obtain ⟨rfl, rfl⟩ := hget
        refine ⟨rfl, ?_⟩
        simp only [cachedGet, hl]
        rw [if_neg (by simp)]
    | list l =>
      cases hl : listNth l i with
      | none => simp [cachedGet, hl] at hget
      | some v =>
        simp only [cachedGet, hl] at hget
        rw [if_neg (by simp)] at hget
        simp only [Except.ok.injEq, Prod.mk.injEq] at hget
        obtain ⟨rfl, rfl⟩ := hget
        refine ⟨rfl, ?_⟩
        simp only [cachedGet, hl]
        rw [if_neg (by simp)]
  · intro W db i v db' hfc hget
    simp only [dbGetItem, hfc, if_pos rfl] at hget
    cases hl : listNth db.processedCache i with
    | none => simp [hl] at hget
    | some w =>
      simp only [hl] at hget
      cases hget
      refine ⟨rfl, ?_⟩
      simp [dbGetItem, hfc, hl]

/-- Witness for C5 at concrete states. -/
theorem claim_C5_witness :
    cachedGet (⟨[5], .normal, 1, 0, true, Cache.dict []⟩ : CachedDataSource Nat) 0
      = .error .keyError ∧
    cachedGet (⟨[5], .normal, 1, 0, true, Cache.dict [(0, 5)]⟩ : CachedDataSource Nat) 3
      = .error .keyError ∧
    cachedGet (⟨[5], .normal, 1, 0, false, Cache.list [5]⟩ : CachedDataSource Nat) 0
      = .ok (5, (⟨[5], .normal, 1, 0, false, Cache.list [5]⟩ : CachedDataSource Nat)) ∧
    dbGetItem
      (⟨.all, .processed, false, true, id, [7], true, true, some 1,
        .plain (.sequenceSource [7]), [], false, false, false, false⟩ : DataBase Nat) 0
      = .ok (7,
        (⟨.all, .processed, false, true, id, [7], true, true, some 1,
          .plain (.sequenceSource [7]), [], false, false, false, false⟩ : DataBase Nat)) :=
  ⟨claim_C5.1 Nat ⟨[5], .normal, 1, 0, true, Cache.dict [(0, 5)]⟩ [(0, 5)] 0 5
      ⟨[5], .normal, 1, 0, true, Cache.dict []⟩ rfl rfl (by decide) rfl,
   claim_C5.2.1 Nat ⟨[5], .normal, 1, 0, true, Cache.dict [(0, 5)]⟩ [(0, 5)] 3 rfl rfl,
   (claim_C5.2.2.1 Nat ⟨[5], .normal, 1, 0, false, Cache.list [5]⟩ 0 5
      ⟨[5], .normal, 1, 0, false, Cache.list [5]⟩ rfl rfl).2,
   (claim_C5.2.2.2 Nat
      ⟨.all, .processed, false, true, id, [7], true, true, some 1,
        .plain (.sequenceSource [7]), [], false, false, false, false⟩ 0 7
      ⟨.all, .processed, false, true, id, [7], true, true, some 1,
        .plain (.sequenceSource [7]), [], false, false, false, false⟩ rfl rfl).2⟩

/-- Claim C6: `max_index` never decreases under any sequence of `prefetch`
and `get` operations; `reset` alone can lower it, to `-1`, and only in
erase-after-access mode (otherwise `reset` is the identity); and
`prefetch(i)` followed by `prefetch(j)` with `j < i` leaves the state
(`max_index` and buffer included) unchanged by the second call. -/
theorem claim_C6 :
    (∀ (V : Type) (c : CachedDataSource V) (ops : List CSOp),
      (∀ op ∈ ops, op ≠ CSOp.resetOp) →
      c.maxIndex ≤ (ops.foldl applyOp c).maxIndex) ∧
    (∀ (V : Type) (c : CachedDataSource V),
      (reset c).maxIndex = (if c.eraseAfterAccess then -1 else c.maxIndex)) ∧
    (∀ (V : Type) (c : CachedDataSource V), c.eraseAfterAccess = false →
      reset c = c) ∧
    (∀ (V : Type) (c : CachedDataSource V) (i j : Int), j < i →
      applyOp (applyOp c (.prefetchTo i)) (.prefetchTo j)
        = applyOp c (.prefetchTo i)) := by
  refine ⟨?_, ?_, ?_, ?_⟩
  · intro W c ops hnr
    induction ops generalizing c with
    | nil => exact le_refl _
    | cons op ops ih =>
      simp only [List.foldl_cons]
      refine le_trans ?_ (ih _ (fun o ho => hnr o (List.mem_cons_of_mem _ ho)))
      cases op with
      | prefetchTo i => exact prefetchAux_maxIndex_mono i _ c
      | getAt i => exact le_of_eq (applyOp_getAt_fields c i).1.symm
      | resetOp => exact absurd rfl (hnr _ (List.mem_cons_self _ _))
  · intro W c
    by_cases her : c.eraseAfterAccess = true <;> simp [reset, her]
  · intro W c her
    simp [reset, her]
  · intro W c i j hji
    simp only [applyOp]
    cases hb : (prefetch c i).2 with
    | none =>
      have hreach : i ≤ (prefetch c i).1.maxIndex :=
        prefetch_reached_of_no_raise c i hb
      rw [prefetch_noop _ j (le_of_lt (lt_of_lt_of_le hji hreach))]
    | some e =>
      have hex := prefetch_raised_exhausted c i e hb
      rw [show prefetch (prefetch c i).1 j
            = prefetchAux j (j - (prefetch c i).1.maxIndex).toNat (prefetch c i).1
          from rfl]
      rw [prefetchAux_exhausted_id j _ _ hex]

/-- Witness for C6 at concrete states. -/
theorem claim_C6_witness :
    (mkCachedSource (.iterSource ([4, 5] : List Nat)) true).maxIndex ≤
      (([CSOp.prefetchTo 0, CSOp.getAt 0].foldl applyOp
        (mkCachedSource (.iterSource ([4, 5] : List Nat)) true))).maxIndex ∧
    (reset (⟨[5], .normal, 1, 0, true, Cache.dict []⟩ : CachedDataSource Nat)).maxIndex
      = (if (⟨[5], .normal, 1, 0, true, Cache.dict []⟩ : CachedDataSource Nat).eraseAfterAccess
         then -1 else 0) ∧
    reset (⟨[5], .normal, 1, 0, false, Cache.list [5]⟩ : CachedDataSource Nat)
      = (⟨[5], .normal, 1, 0, false, Cache.list [5]⟩ : CachedDataSource Nat) ∧
    applyOp (applyOp (mkCachedSource (.iterSource ([4, 5] : List Nat)) false)
        (.prefetchTo 2)) (.prefetchTo 1)
      = applyOp (mkCachedSource (.iterSource ([4, 5] : List Nat)) false)
        (.prefetchTo 2) :=
  ⟨claim_C6.1 Nat _ [CSOp.prefetchTo 0, CSOp.getAt 0] (by decide),
   claim_C6.2.1 Nat ⟨[5], .normal, 1, 0, true, Cache.dict []⟩,
   claim_C6.2.2.1 Nat ⟨[5], .normal, 1, 0, false, Cache.list [5]⟩ rfl,
   claim_C6.2.2.2 Nat (mkCachedSource (.iterSource [4, 5]) false) 2 1 (by decide)⟩

/-- Claim C10: for a `_CachedDataSource` in retain mode
(`erase_after_access = False`), after any sequence of `prefetch`, `get`
and `reset` operations, the buffer is exactly the first `max_index + 1`
elements of the wrapped source in source order, and its length equals
`max_index + 1`. -/
theorem claim_C10 :
    ∀ (V : Type) (s : SourceModel V) (ops : List CSOp),
      (ops.foldl applyOp (mkCachedSource s false)).cache
        = Cache.list ((iterRun s).1.take
            ((ops.foldl applyOp (mkCachedSource s false)).maxIndex + 1).toNat) ∧
      Cache.size (ops.foldl applyOp (mkCachedSource s false)).cache
        = ((ops.foldl applyOp (mkCachedSource s false)).maxIndex + 1).toNat := by
  intro W s ops
  have hInv0 : RetainInv (iterRun s).1 (mkCachedSource s false) :=
    ⟨rfl, rfl, by simp [mkCachedSource], by simp [mkCachedSource], by simp [mkCachedSource]⟩
  obtain ⟨her, hsrc, hmx, hle, hcache⟩ :=
    foldl_retainInv (iterRun s).1 (mkCachedSource s false) ops hInv0
  have hpos : ((ops.foldl applyOp (mkCachedSource s false)).maxIndex + 1).toNat
      = (ops.foldl applyOp (mkCachedSource s false)).pos := by omega
  refine ⟨by rw [hpos, hcache], ?_⟩
  rw [hpos, hcache]
  simp [Cache.size, List.length_take]
  omega

namespace DataBase

/-- Correctness of the doubling loop of `_prefetch_all_source`: entered
right after a successful `prefetch(target)` (so `max_index = target`),
with enough fuel that the doubled targets must overtake the source length,
it terminates with the true source length. -/
theorem prefetchAllLoop_spec (fuel : Nat) :
    ∀ (target : Nat) (c : CachedDataSource V),
      c.srcEnd = .normal →
      c.maxIndex = (target : Int) →
      c.pos = target + 1 →
      c.pos ≤ c.sourceIter.length →
      1 ≤ target →
      c.sourceIter.length ≤ target * 2 ^ fuel →
      ∃ c', prefetchAllLoop fuel target c = .ok (c', c.sourceIter.length) ∧
        c'.maxIndex = (c.sourceIter.length : Int) - 1 := by
  induction fuel with
  | zero =>
    intro target c _ hmx hpos hle h1 hbound
    simp only [pow_zero, mul_one] at hbound
    omega
  | succ fuel ih =>
    intro target c hnorm hmx hpos hle h1 hbound
    have hlink : c.maxIndex = (c.pos : Int) - 1 := by omega
    have hsplit : prefetch c ((target * 2 : Nat) : Int)
        = ((prefetch c ((target * 2 : Nat) : Int)).1,
           (prefetch c ((target * 2 : Nat) : Int)).2) := rfl
    by_cases hcase : c.sourceIter.length ≤ target * 2
    · have hspec := prefetch_raise_spec c (target * 2) hlink hle hcase
      have herr : (prefetch c ((target * 2 : Nat) : Int)).2 = some PyError.stopIteration := by
        rw [hspec.1, hnorm]
        rfl
      refine ⟨(prefetch c ((target * 2 : Nat) : Int)).1, ?_, hspec.2.1⟩
      simp only [prefetchAllLoop]
      rw [hsplit, herr]
      show Except.ok
        ((prefetch c ((target * 2 : Nat) : Int)).1,
         ((prefetch c ((target * 2 : Nat) : Int)).1.maxIndex + 1).toNat)
        = Except.ok ((prefetch c ((target * 2 : Nat) : Int)).1, c.sourceIter.length)
      have : ((prefetch c ((target * 2 : Nat) : Int)).1.maxIndex + 1).toNat
          = c.sourceIter.length := by
        have := hspec.2.1
        omega
      rw [this]
    · push_neg at hcase
      have hspec := prefetch_success_spec c (target * 2) hlink hle (by omega) hcase
      have hfr := prefetch_frozen c ((target * 2 : Nat) : Int)
      have hself := ih (target * 2) (prefetch c ((target * 2 : Nat) : Int)).1
        (by rw [hfr.2.1]; exact hnorm)
        hspec.2.1
        hspec.2.2
        (by rw [hfr.1, hspec.2.2]; omega)
        (by omega)
        (by
          rw [hfr.1]
          calc c.sourceIter.length ≤ target * 2 ^ (fuel + 1) := hbound
            _ = target * 2 * 2 ^ fuel := by ring)
      obtain ⟨c', heq, hmx'⟩ := hself
      rw [hfr.1] at heq hmx'
      refine ⟨c', ?_, hmx'⟩
      simp only [prefetchAllLoop]
      rw [hsplit, hspec.1]
      exact heq

end DataBase

/-- Claim C4: for every finite sequential-only source wrapped in a
`_CachedDataSource`, `_prefetch_all_source` (first target `10 ** 8`, warn
and keep doubling if not exhausted) terminates when the underlying
iterator raises the end-of-source signal, and on termination reports
`dataset_size = max_index + 1`, the true number of elements. -/
theorem claim_C4 :
    ∀ (V : Type) (l : List V) (erase : Bool),
      ∃ c', prefetchAllSource (mkCachedSource (.iterSource l) erase)
          = .ok (c', l.length,
              if l.length ≤ 10 ^ 8 then [] else [MkWarning.possiblyInfiniteSource]) ∧
        c'.maxIndex + 1 = (l.length : Int) := by
  intro W l erase
  have hlink : (mkCachedSource (SourceModel.iterSource l ) erase).maxIndex
      = ((mkCachedSource (SourceModel.iterSource l) erase).pos : Int) - 1 := by
    show (-1 : Int) = ((0 : Nat) : Int) - 1
    norm_num
  have hle : (mkCachedSource (SourceModel.iterSource l) erase).pos
      ≤ (mkCachedSource (SourceModel.iterSource l) erase).sourceIter.length := by
    show 0 ≤ l.length
    omega
  have hsrcIter : (mkCachedSource (SourceModel.iterSource l) erase).sourceIter = l := rfl
  have hnorm : (mkCachedSource (SourceModel.iterSource l) erase).srcEnd = .normal := rfl
  have hsplit : prefetch (mkCachedSource (SourceModel.iterSource l) erase) ((10 ^ 8 : Nat) : Int)
      = ((prefetch (mkCachedSource (SourceModel.iterSource l) erase) ((10 ^ 8 : Nat) : Int)).1,
         (prefetch (mkCachedSource (SourceModel.iterSource l) erase) ((10 ^ 8 : Nat) : Int)).2) := rfl
  by_cases hL : l.length ≤ 10 ^ 8
  · have hspec := prefetch_raise_spec (mkCachedSource (SourceModel.iterSource l) erase)
      (10 ^ 8) hlink hle (by rw [hsrcIter]; exact hL)
    have herr : (prefetch (mkCachedSource (SourceModel.iterSource l) erase)
        ((10 ^ 8 : Nat) : Int)).2 = some PyError.stopIteration := by
      rw [hspec.1, hnorm]
      rfl
    refine ⟨(prefetch (mkCachedSource (SourceModel.iterSource l) erase) ((10 ^ 8 : Nat) : Int)).1,
      ?_, ?_⟩
    · simp only [prefetchAllSource]
      rw [hsplit, herr, if_pos hL]
      show Except.ok
        ((prefetch (mkCachedSource (SourceModel.iterSource l) erase) ((10 ^ 8 : Nat) : Int)).1,
         ((prefetch (mkCachedSource (SourceModel.iterSource l) erase)
            ((10 ^ 8 : Nat) : Int)).1.maxIndex + 1).toNat, ([] : List MkWarning))
        = Except.ok
        ((prefetch (mkCachedSource (SourceModel.iterSource l) erase) ((10 ^ 8 : Nat) : Int)).1,
         l.length, ([] : List MkWarning))
      have hm := hspec.2.1
      rw [hsrcIter] at hm
      have : ((prefetch (mkCachedSource (SourceModel.iterSource l) erase)
          ((10 ^ 8 : Nat) : Int)).1.maxIndex + 1).toNat = l.length := by omega
      rw [this]
    · have hm := hspec.2.1
      rw [hsrcIter] at hm
      omega
  · push_neg at hL
    have hspec := prefetch_success_spec (mkCachedSource (SourceModel.iterSource l) erase)
      (10 ^ 8) hlink hle (by show (-1 : Int) < ((10 ^ 8 : Nat) : Int); norm_num)
      (by rw [hsrcIter]; exact hL)
    have hfr := prefetch_frozen (mkCachedSource (SourceModel.iterSource l) erase)
      ((10 ^ 8 : Nat) : Int)
    have hloop := prefetchAllLoop_spec
      ((prefetch (mkCachedSource (SourceModel.iterSource l) erase)
         ((10 ^ 8 : Nat) : Int)).1.sourceIter.length + 1)
      (10 ^ 8)
      (prefetch (mkCachedSource (SourceModel.iterSource l) erase) ((10 ^ 8 : Nat) : Int)).1
      (by rw [hfr.2.1]; exact hnorm)
      hspec.2.1
      hspec.2.2
      (by rw [hfr.1, hsrcIter, hspec.2.2]; omega)
      (by norm_num)
      (by
        rw [hfr.1, hsrcIter]
        have h1 : l.length < 2 ^ l.length := Nat.lt_two_pow _
        have h2 : (2 : Nat) ^ l.length ≤ 2 ^ (l.length + 1) :=
          Nat.pow_le_pow_right (by norm_num) (by omega)
        have h3 : (2 : Nat) ^ (l.length + 1) ≤ 10 ^ 8 * 2 ^ (l.length + 1) :=
          Nat.le_mul_of_pos_left _ (by norm_num)
        omega)
    obtain ⟨c', heq, hmx'⟩ := hloop
    rw [hfr.1, hsrcIter] at heq hmx'
    refine ⟨c', ?_, by omega⟩
    simp only [prefetchAllSource]
    rw [hsplit, hspec.1, if_neg (by omega)]
    show prefetchAllFinish (prefetchAllLoop
        ((prefetch (mkCachedSource (SourceModel.iterSource l) erase)
           ((10 ^ 8 : Nat) : Int)).1.sourceIter.length + 1) (10 ^ 8)
        (prefetch (mkCachedSource (SourceModel.iterSource l) erase)
           ((10 ^ 8 : Nat) : Int)).1)
      = Except.ok (c', l.length, [MkWarning.possiblyInfiniteSource])
    rw [show (prefetch (mkCachedSource (SourceModel.iterSource l) erase)
        ((10 ^ 8 : Nat) : Int)).1.sourceIter.length = l.length from by rw [hfr.1, hsrcIter]]
    rw [heq]
    rfl

namespace SourceModel

theorem srcGetItem_empty_zero :
    srcGetItem (.sequenceSource ([] : List V)) 0 = .error .indexError := rfl

theorem srcGetItem_truncated_empty_zero (k : Int) :
    srcGetItem (.truncated (.sequenceSource ([] : List V)) k) 0
      = .error .indexError := by
  by_cases hk : k ≤ ((0 : Nat) : Int) <;> simp [srcGetItem, hk, listNth]

end SourceModel

namespace DataBase

/-- The random-access probe propagates `IndexError` from `source[0]`
(only `TypeError` is caught). -/
theorem probeSource_indexError (lz : LazyStrategy) (cs : CacheStrategy)
    (src : SourceModel V) (n : Int) (hlz : lz ≠ .none)
    (hlen : srcLen src = .ok n)
    (hget : srcGetItem src 0 = .error .indexError) :
    probeSource lz cs src = .error .indexError := by
  rw [probeSource, if_neg hlz, hlen, hget]

/-- The random-access probe propagates `ValueError` from `len(source)`
(only `TypeError` is caught), before `source[0]` is ever evaluated. -/
theorem probeSource_valueError (lz : LazyStrategy) (cs : CacheStrategy)
    (src : SourceModel V) (hlz : lz ≠ .none)
    (hlen : srcLen src = .error .valueError) :
    probeSource lz cs src = .error .valueError := by
  rw [probeSource, if_neg hlz, hlen]

end DataBase

/-- Claim C8: constructing the engine with `laziness ≠ none` over an empty
random-access source raises `IndexError`: the probe unconditionally
evaluates `source[0]` and catches only `TypeError`, so the out-of-range
error from the empty source propagates out of the constructor instead of
producing a size-0 pipeline. This holds for every hyperparameter
combination with a non-`none` lazy strategy whose `max_dataset_size` is
the default `-1` or a nonnegative bound; with `max_dataset_size ≤ -2` the
probe's `len()` call raises `ValueError` (negative `__len__` from the
truncation wrapper) before `source[0]` is evaluated, so construction
still fails, with that error instead. -/
theorem claim_C8 :
    ∀ (V : Type) (f : V → V) (hp : DataHParams), hp.lazyStrategy ≠ .none →
      (-1 ≤ hp.maxDatasetSize →
        mkDataBase (.sequenceSource ([] : List V)) f hp = .error .indexError) ∧
      (hp.maxDatasetSize ≤ -2 →
        mkDataBase (.sequenceSource ([] : List V)) f hp = .error .valueError) := by
  intro W f hp hlz
  obtain ⟨lz, cs, pp, npc, mds⟩ := hp
  simp only at hlz ⊢
  constructor
  · intro hmds
    have hlen : srcLen
        (if pp = false ∧ lz = LazyStrategy.all ∧
            (resolveStrategies lz cs).1 ≠ CacheStrategy.loaded
         then SourceModel.transformed
            (if mds = -1 then SourceModel.sequenceSource ([] : List W)
             else SourceModel.truncated (SourceModel.sequenceSource []) mds) f
         else if mds = -1 then SourceModel.sequenceSource ([] : List W)
              else SourceModel.truncated (SourceModel.sequenceSource []) mds)
        = .ok 0 := by
      split
      · rw [srcLen_transformed]
        split
        · simpa using srcLen_seq ([] : List W)
        · exact srcLen_truncated_empty_nonneg mds (by omega)
      · split
        · simpa using srcLen_seq ([] : List W)
        · exact srcLen_truncated_empty_nonneg mds (by omega)
    have hget : srcGetItem
        (if pp = false ∧ lz = LazyStrategy.all ∧
            (resolveStrategies lz cs).1 ≠ CacheStrategy.loaded
         then SourceModel.transformed
            (if mds = -1 then SourceModel.sequenceSource ([] : List W)
             else SourceModel.truncated (SourceModel.sequenceSource []) mds) f
         else if mds = -1 then SourceModel.sequenceSource ([] : List W)
              else SourceModel.truncated (SourceModel.sequenceSource []) mds) 0
        = .error .indexError := by
      split <;> split <;>
        simp [srcGetItem, srcGetItem_truncated_empty_zero, listNth, Except.map]
    simp only [mkDataBase]
    rw [DataBase.probeSource_indexError lz ((resolveStrategies lz cs).1) _ 0 hlz hlen hget]
  · intro hmds
    have hne1 : ¬(mds = -1) := by omega
    have hlen : srcLen
        (if pp = false ∧ lz = LazyStrategy.all ∧
            (resolveStrategies lz cs).1 ≠ CacheStrategy.loaded
         then SourceModel.transformed
            (if mds = -1 then SourceModel.sequenceSource ([] : List W)
             else SourceModel.truncated (SourceModel.sequenceSource []) mds) f
         else if mds = -1 then SourceModel.sequenceSource ([] : List W)
              else SourceModel.truncated (SourceModel.sequenceSource []) mds)
        = .error .valueError := by
      rw [if_neg hne1]
      split
      · rw [srcLen_transformed]
        exact srcLen_truncated_empty_neg mds (by omega)
      · exact srcLen_truncated_empty_neg mds (by omega)
    simp only [mkDataBase]
    rw [DataBase.probeSource_valueError lz ((resolveStrategies lz cs).1) _ hlz hlen]

/-- Witness for C8 with the documented default lazy strategy (`all`), for
both the default and a negative `max_dataset_size`. -/
theorem claim_C8_witness :
    mkDataBase (.sequenceSource ([] : List Nat)) id
      ⟨.all, .processed, true, 1, -1⟩ = .error .indexError ∧
    mkDataBase (.sequenceSource ([] : List Nat)) id
      ⟨.all, .processed, true, 1, -2⟩ = .error .valueError :=
  ⟨(claim_C8 Nat id ⟨.all, .processed, true, 1, -1⟩ (by decide)).1 (by decide),
   (claim_C8 Nat id ⟨.all, .processed, true, 1, -2⟩ (by decide)).2 (by decide)⟩

/-- Claim C9: when the wrapped source yields fewer than `max_size`
elements (ending normally), iterating the truncated source does not stop
cleanly after the source's last element: the `next(iterator)` call inside
the generator body lets the end-of-source signal escape, so the consumer
receives an error (a `RuntimeError`, per PEP 479) after the yielded
elements instead of a normal termination. -/
theorem claim_C9 :
    ∀ (V : Type) (s : SourceModel V) (n : Nat), (iterRun s).2 = .normal →
      (iterRun s).1.length < n →
      iterRun (.truncated s n) = ((iterRun s).1, .errored) := by
  intro W s n hnorm hlt
  simp only [iterRun]
  rw [hnorm, show ((n : Int)).toNat = n from by omega]
  exact truncIterAux_of_lt _ _ hlt

/-- Witness for C9: a one-element iterable source truncated at 5. -/
theorem claim_C9_witness :
    iterRun (.truncated (.iterSource ([3] : List Nat)) 5) = ([3], .errored) :=
  claim_C9 Nat (.iterSource [3]) 5 rfl (by decide)

end Texar
